import Mathlib

/-!
Verification development for the gateway-board CAN-FD transport core.

The definitions below are shallow embeddings of the C functions in
src/Core/Src/can_bus.c and src/Core/Src/telemetry.c.  Byte buffers are
lists of naturals (each entry one byte), machine integers are naturals or
integers with explicit reductions modulo 2^w wherever the C code relies on
wrap-around, and the reassembly table is a list of slot records.  The
FDCAN peripheral handle, null pointers and the HAL transmit status are not
representable; functions that can fail return Option instead, with none
standing for the HAL_ERROR early-outs that depend only on the arguments.
-/

-- ==================== FD DLC helpers (can_bus.c, can_bus_dlc_to_len / can_bus_len_to_dlc / can_bus_round_up_fd_len) ====================

/-- DLC codes of the STM32G4 HAL (FDCAN_DLC_BYTES_x).  These constants live in
the board-support HAL header, an external collaborator of the repository; the
spec (section 6 and the glossary) fixes their contract: plain 4-bit DLC codes
0..15 indexing the 16-entry CAN-FD length table. -/
def FDCAN_DLC_BYTES_0 : Nat := 0

def FDCAN_DLC_BYTES_1 : Nat := 1

def FDCAN_DLC_BYTES_2 : Nat := 2

def FDCAN_DLC_BYTES_3 : Nat := 3

def FDCAN_DLC_BYTES_4 : Nat := 4

def FDCAN_DLC_BYTES_5 : Nat := 5

def FDCAN_DLC_BYTES_6 : Nat := 6

def FDCAN_DLC_BYTES_7 : Nat := 7

def FDCAN_DLC_BYTES_8 : Nat := 8

def FDCAN_DLC_BYTES_12 : Nat := 9

def FDCAN_DLC_BYTES_16 : Nat := 10

def FDCAN_DLC_BYTES_20 : Nat := 11

def FDCAN_DLC_BYTES_24 : Nat := 12

def FDCAN_DLC_BYTES_32 : Nat := 13

def FDCAN_DLC_BYTES_48 : Nat := 14

def FDCAN_DLC_BYTES_64 : Nat := 15

/-- can_bus_dlc_to_len: table lookup after masking the DLC to 4 bits. -/
def canBusDlcToLen (dlc : Nat) : Nat :=
  [0, 1, 2, 3, 4, 5, 6, 7, 8, 12, 16, 20, 24, 32, 48, 64].getD (dlc % 16) 0

/-- can_bus_len_to_dlc: switch on the exact byte length; lengths outside the
CAN-FD table yield the sentinel 0xFFFFFFFF. -/
def canBusLenToDlc (len : Nat) : Nat :=
  match len with
  | 0 => FDCAN_DLC_BYTES_0
  | 1 => FDCAN_DLC_BYTES_1
  | 2 => FDCAN_DLC_BYTES_2
  | 3 => FDCAN_DLC_BYTES_3
  | 4 => FDCAN_DLC_BYTES_4
  | 5 => FDCAN_DLC_BYTES_5
  | 6 => FDCAN_DLC_BYTES_6
  | 7 => FDCAN_DLC_BYTES_7
  | 8 => FDCAN_DLC_BYTES_8
  | 12 => FDCAN_DLC_BYTES_12
  | 16 => FDCAN_DLC_BYTES_16
  | 20 => FDCAN_DLC_BYTES_20
  | 24 => FDCAN_DLC_BYTES_24
  | 32 => FDCAN_DLC_BYTES_32
  | 48 => FDCAN_DLC_BYTES_48
  | 64 => FDCAN_DLC_BYTES_64
  | _ => 0xFFFFFFFF

/-- can_bus_round_up_fd_len: round a payload length up to the next CAN-FD
wire length (the C function ends with two branches both returning 64). -/
def canBusRoundUpFdLen (len : Nat) : Nat :=
  if len ≤ 8 then len
  else if len ≤ 12 then 12
  else if len ≤ 16 then 16
  else if len ≤ 20 then 20
  else if len ≤ 24 then 24
  else if len ≤ 32 then 32
  else if len ≤ 48 then 48
  else if len ≤ 64 then 64
  else 64

-- ==================== RX ring buffer (can_bus.c, rb_next / rb_push_drop_oldest / rb_pop) ====================

/-- One received frame as stored in a ring slot: 11-bit standard id and the
payload bytes (the C struct stores a 64-byte array plus a length; here data
holds exactly the len valid bytes). -/
structure RxFrame where
  std_id : Nat
  data : List Nat
deriving DecidableEq

instance : Inhabited RxFrame := ⟨⟨0, []⟩⟩

/-- The ring: head and tail indices plus the 64 slots
(CAN_BUS_RX_RING_DEPTH = 64). -/
structure RingState where
  head : Nat
  tail : Nat
  slots : List RxFrame
deriving DecidableEq

/-- rb_next: increment and wrap at the ring depth. -/
def rbNext (v : Nat) : Nat := if 64 ≤ v + 1 then 0 else v + 1

/-- Ring state after can_bus_init: indices zero, slots in their static state. -/
def rbInit : RingState := ⟨0, 0, List.replicate 64 default⟩

/-- rb_push_drop_oldest: clamp len to 64, evict the oldest slot when full
(next(head) == tail), write the slot at head, publish head = next(head). -/
def rbPush (st : RingState) (stdId : Nat) (data : List Nat) : RingState :=
  let d := data.take 64
  let st1 := if rbNext st.head = st.tail then { st with tail := rbNext st.tail } else st
  let h := st1.head
  { st1 with slots := st1.slots.set h ⟨stdId, d⟩, head := rbNext h }

/-- rb_pop: empty when head == tail, else copy out the slot at tail and
advance tail. -/
def rbPop (st : RingState) : Option RxFrame × RingState :=
  if st.head = st.tail then (none, st)
  else (some (st.slots.getD st.tail default), { st with tail := rbNext st.tail })

/-- Repeated rb_pop with explicit fuel (the ring holds fewer than 64 frames,
so fuel 64 always drains it). -/
def popList : RingState → Nat → List RxFrame
  | _, 0 => []
  | st, fuel + 1 =>
    match rbPop st with
    | (none, _) => []
    | (some f, st1) => f :: popList st1 fuel

/-- An interleaving step on the ring: an ISR push or a consumer pop. -/
inductive RingOp where
  | push (stdId : Nat) (data : List Nat)
  | pop

def applyRingOp (st : RingState) : RingOp → RingState
  | .push i d => rbPush st i d
  | .pop => (rbPop st).2

-- ==================== Fragmentation protocol (can_bus.c, can_bus_frag_hdr_t) ====================

/-- can_bus_frag_hdr_t: the packed 8-byte fragment header. -/
structure FragHdr where
  magic : Nat
  seq : Nat
  frag_idx : Nat
  frag_cnt : Nat
  flags : Nat
  total_len : Nat
deriving DecidableEq

/-- Reading the packed little-endian header out of the first 8 payload bytes
(the memcpy of handle_rx_frame on a little-endian Cortex-M). -/
def decodeFragHdr (d : List Nat) : FragHdr :=
  { magic := d.getD 0 0 + 256 * d.getD 1 0
    seq := d.getD 2 0
    frag_idx := d.getD 3 0
    frag_cnt := d.getD 4 0
    flags := d.getD 5 0
    total_len := d.getD 6 0 + 256 * d.getD 7 0 }

/-- Writing the packed little-endian header (the memcpy of
can_bus_send_large); magic is CAN_BUS_FRAG_MAGIC = 0x5344, whose two
little-endian bytes are 0x44 (= 0x5344 % 256) and 0x53 (= 0x5344 / 256). -/
def encodeFragHdrBytes (seqv idx cnt flags totalLen : Nat) : List Nat :=
  [0x44, 0x53, seqv % 256, idx % 256, cnt % 256, flags % 256,
   totalLen % 256, totalLen / 256 % 256]

-- ==================== Reassembly state (can_bus.c, can_bus_reasm_slot_t and helpers) ====================

/-- can_bus_reasm_slot_t.  got_mask is a single natural (frag_idx is always
below 64 when a bit is touched, so the one-word C bitmap is exact); buf is the
2048-byte buffer as a function from index to byte. -/
structure Slot where
  active : Bool
  std_id : Nat
  seq : Nat
  frag_cnt : Nat
  total_len : Nat
  data_cap : Nat
  last_tick : Nat
  got_mask : Nat
  got_count : Nat
  buf : Nat → Nat

/-- A slot in its zero-initialised (static) state. -/
def zeroSlot : Slot := ⟨false, 0, 0, 0, 0, 0, 0, 0, 0, fun _ => 0⟩

instance : Inhabited Slot := ⟨zeroSlot⟩

/-- reasm_reset: clear every field except buf (the C function does not wipe
the data buffer). -/
def resetSlot (s : Slot) : Slot :=
  { s with
    active := false
    std_id := 0
    seq := 0
    frag_cnt := 0
    total_len := 0
    data_cap := 0
    last_tick := 0
    got_count := 0
    got_mask := 0 }

/-- The four-slot table (CAN_BUS_REASM_SLOTS = 4) after can_bus_init. -/
def initSlots : List Slot := [zeroSlot, zeroSlot, zeroSlot, zeroSlot]

/-- The uint32 subtraction (uint32_t)(now - last) used for slot ages. -/
def age32 (now last : Nat) : Nat := (2 ^ 32 + now % 2 ^ 32 - last % 2 ^ 32) % 2 ^ 32

/-- reasm_expire_old: reset every active slot older than
CAN_BUS_REASM_TIMEOUT_MS = 250. -/
def reasmExpireOld (slots : List Slot) (now : Nat) : List Slot :=
  slots.map fun s => if s.active = true ∧ 250 < age32 now s.last_tick then resetSlot s else s

/-- The scanning for-loops of reasm_get_slot: first index satisfying p. -/
def findFirstIdx (p : Slot → Bool) : List Slot → Nat → Option Nat
  | [], _ => none
  | s :: rest, i => if p s then some i else findFirstIdx p rest (i + 1)

/-- The stalest-slot loop of reasm_get_slot: running best age and index,
a later slot wins ties (the C loop updates on age >= best_age). -/
def stalestGo (now : Nat) : List Slot → Nat → Nat → Nat → Nat
  | [], _, _, bestIdx => bestIdx
  | s :: rest, i, bestAge, bestIdx =>
    let age := age32 now s.last_tick
    if bestAge ≤ age then stalestGo now rest (i + 1) age i
    else stalestGo now rest (i + 1) bestAge bestIdx

def stalestIdx (slots : List Slot) (now : Nat) : Nat := stalestGo now slots 0 0 0

/-- reasm_get_slot: find the active slot for std_id (resetting it in place if
its sequence changed), else claim the first free slot, else evict the stalest
slot.  Returns the updated table and the index of the chosen slot. -/
def reasmGetSlot (slots : List Slot) (stdId seqv now : Nat) : List Slot × Nat :=
  match findFirstIdx (fun s => s.active && (s.std_id == stdId)) slots 0 with
  | some i =>
    let s := slots.getD i zeroSlot
    let s := if s.seq ≠ seqv then resetSlot s else s
    let s := { s with last_tick := now }
    (slots.set i s, i)
  | none =>
    match findFirstIdx (fun s => !s.active) slots 0 with
    | some i =>
      let s := { resetSlot (slots.getD i zeroSlot) with
                 active := true, std_id := stdId, seq := seqv, last_tick := now }
      (slots.set i s, i)
    | none =>
      let i := stalestIdx slots now
      let s := { resetSlot (slots.getD i zeroSlot) with
                 active := true, std_id := stdId, seq := seqv, last_tick := now }
      (slots.set i s, i)

/-- memcpy(&buf[off], src, src.length) on the functional buffer. -/
def memcpyAt (buf : Nat → Nat) (off : Nat) (src : List Nat) : Nat → Nat :=
  fun j => if off ≤ j ∧ j < off + src.length then src.getD (j - off) 0 else buf j

/-- Tail of handle_rx_frame after the slot has been located and its message
parameters initialised or checked: offset computation, duplicate test via the
bitmap, copy, activity refresh, and completion delivery.  Nat.testBit is
exactly the C bit_test ((mask >> b) & 1) and the ||| of a shifted one is
bit_set. -/
def reasmAccept (slots : List Slot) (idx : Nat) (s : Slot) (hdr : FragHdr)
    (payload : List Nat) (payloadLen now : Nat) : List Slot × List (List Nat) :=
  let off := hdr.frag_idx * s.data_cap
  if s.total_len ≤ off then (slots.set idx s, [])
  else
    let take0 := min payloadLen (s.total_len - off)
    let s1 :=
      if s.got_mask.testBit hdr.frag_idx then s
      else { s with
             got_mask := s.got_mask ||| 1 <<< hdr.frag_idx
             got_count := s.got_count + 1
             buf := memcpyAt s.buf off (payload.take take0) }
    let s2 := { s1 with last_tick := now }
    if s2.got_count = s2.frag_cnt then
      (slots.set idx (resetSlot s2), [(List.range s2.total_len).map s2.buf])
    else (slots.set idx s2, [])

/-- handle_rx_frame: fragment detection (length and magic), header
validation, slot lookup, message-parameter init or consistency check, then
reasmAccept.  Non-fragment frames are delivered raw; the second component
collects the can_bus_notify_rx payloads. -/
def handleRxFrame (slots : List Slot) (f : RxFrame) (now : Nat) :
    List Slot × List (List Nat) :=
  if 8 ≤ f.data.length then
    let hdr := decodeFragHdr f.data
    if hdr.magic = 0x5344 then
      if hdr.frag_cnt = 0 then (slots, [])
      else if hdr.frag_cnt ≤ hdr.frag_idx then (slots, [])
      else if 64 < hdr.frag_cnt then (slots, [])
      else if hdr.total_len = 0 then (slots, [])
      else if 2048 < hdr.total_len then (slots, [])
      else
        let payload := f.data.drop 8
        let payloadLen := f.data.length - 8
        let r := reasmGetSlot slots f.std_id hdr.seq now
        let s := r.1.getD r.2 zeroSlot
        if s.frag_cnt = 0 then
          let s1 := { s with
                      frag_cnt := hdr.frag_cnt
                      total_len := hdr.total_len
                      data_cap := payloadLen
                      got_count := 0
                      got_mask := 0 }
          reasmAccept r.1 r.2 s1 hdr payload payloadLen now
        else if s.frag_cnt ≠ hdr.frag_cnt then (r.1.set r.2 (resetSlot s), [])
        else if s.total_len ≠ hdr.total_len then (r.1.set r.2 (resetSlot s), [])
        else reasmAccept r.1 r.2 s hdr payload payloadLen now
    else (slots, [f.data])
  else (slots, [f.data])

/-- The drain loop of can_bus_process_rx over an explicit FIFO list of frames
(the frames popped from the ring, oldest first), collecting all subscriber
notifications. -/
def processList (slots : List Slot) (frames : List RxFrame) (now : Nat) :
    List Slot × List (List Nat) :=
  frames.foldl (fun acc f =>
    let r := handleRxFrame acc.1 f now
    (r.1, acc.2 ++ r.2)) (slots, [])

/-- can_bus_process_rx: one staleness sweep at the current tick, then handle
every pending frame at that same tick. -/
def canBusProcessRx (slots : List Slot) (frames : List RxFrame) (now : Nat) :
    List Slot × List (List Nat) :=
  processList (reasmExpireOld slots now) frames now

/-- The sequence of reassembly-table states in which can_bus_process_rx
handles each successive frame: the post-sweep state first, then the state
after each handled frame. -/
def processStates (slots : List Slot) (now : Nat) (frames : List RxFrame) :
    List (List Slot) :=
  frames.scanl (fun st f => (handleRxFrame st f now).1) (reasmExpireOld slots now)

-- ==================== TX path (can_bus.c, can_bus_send_bytes / can_bus_send_large) ====================

/-- The frame handed to HAL_FDCAN_AddMessageToTxFifoQ: masked standard id,
DLC code, and the 64-byte txData buffer. -/
structure TxFrame where
  id : Nat
  dlc : Nat
  data : List Nat
deriving DecidableEq

instance : Inhabited TxFrame := ⟨⟨0, 0, []⟩⟩

/-- can_bus_send_bytes: reject empty input, clamp len to 64, round the wire
length up to an FD size, zero-pad the 64-byte txData buffer.  The null-bytes
and uninitialised-handle HAL_ERROR paths concern pointers and are outside the
embedding; the HAL transmit status is abstracted by returning the frame. -/
def canBusSendBytes (bytes : List Nat) (stdId : Nat) : Option TxFrame :=
  if bytes.length = 0 then none
  else
    let len := min bytes.length 64
    let wire := canBusRoundUpFdLen len
    let dlc := canBusLenToDlc wire
    if dlc = 0xFFFFFFFF then none
    else some ⟨stdId % 0x800, dlc, bytes.take len ++ List.replicate (64 - len) 0⟩

/-- The fragment loop of can_bus_send_large: for idx in [idx, cnt), build the
zero-initialised 64-byte frame, copy the header and the next take bytes of
the payload, and advance off by take.  data_cap is 64 - 8 = 56.  The loop
counts down on rem = cnt - idx, the number of remaining iterations, so that
the recursion is structural. -/
def sendLargeGo (bytes : List Nat) (seqv cnt : Nat) : Nat → Nat → Nat → List (List Nat)
  | 0, _, _ => []
  | rem + 1, idx, off =>
    let flags := (if idx = 0 then 1 else 0) ||| (if idx = cnt - 1 then 2 else 0)
    let take0 := min (bytes.length - off) 56
    let frame := encodeFragHdrBytes seqv idx cnt flags bytes.length ++
      (bytes.drop off).take take0 ++ List.replicate (56 - take0) 0
    frame :: sendLargeGo bytes seqv cnt rem (idx + 1) (off + take0)

/-- The fragment loop entered at fragment idx with payload offset off. -/
def sendLargeFrames (bytes : List Nat) (seqv cnt idx off : Nat) : List (List Nat) :=
  sendLargeGo bytes seqv cnt (cnt - idx) idx off

/-- can_bus_send_large: argument checks (empty, u16 total_len overflow,
fragment count above 255), then each fragment frame goes through
can_bus_send_bytes with the fixed 64-byte wire length.  The static sequence
counter is passed in as seqv.  The compile-time wire_len > 64 and
data_cap == 0 checks are identically false and elided. -/
def canBusSendLarge (bytes : List Nat) (seqv stdId : Nat) : Option (List TxFrame) :=
  if bytes.length = 0 then none
  else if 0xFFFF < bytes.length then none
  else
    let cnt0 := (bytes.length + (64 - 8) - 1) / (64 - 8)
    let cnt := if cnt0 = 0 then 1 else cnt0
    if 255 < cnt then none
    else (sendLargeFrames bytes seqv cnt 0 0).mapM fun fr => canBusSendBytes fr stdId

/-- Closed form of the idx-th wire frame emitted by can_bus_send_large
(proved equal to the loop output below): 8-byte header, the idx-th chunk of
at most 56 payload bytes, zero padding up to 64 bytes. -/
def fragWire (bytes : List Nat) (seqv cnt i : Nat) : List Nat :=
  encodeFragHdrBytes seqv i cnt
    ((if i = 0 then 1 else 0) ||| (if i = cnt - 1 then 2 else 0)) bytes.length ++
  (bytes.drop (56 * i)).take (min (bytes.length - 56 * i) 56) ++
  List.replicate (56 - min (bytes.length - 56 * i) 56) 0

-- ==================== Time sync (telemetry.c, compute_offset_delay / threadx_apply_offset_ms) ====================

/-- Wrapping uint64 subtraction t_a - t_b. -/
def u64sub (a b : Nat) : Nat := (a % 2 ^ 64 + 2 ^ 64 - b % 2 ^ 64) % 2 ^ 64

/-- Reinterpretation of a uint64 bit pattern as int64 (the (int64_t) casts of
compute_offset_delay on two's-complement hardware). -/
def toInt64 (x : Nat) : Int :=
  if x % 2 ^ 64 < 2 ^ 63 then ((x % 2 ^ 64 : Nat) : Int) else ((x % 2 ^ 64 : Nat) : Int) - 2 ^ 64

/-- compute_offset_delay: o = ((int64)(t2-t1) + (int64)(t3-t4)) / 2 with C
truncated division, d = (int64)(t4-t1) - (int64)(t3-t2) clamped below at 0. -/
def computeOffsetDelay (t1 t2 t3 t4 : Nat) : Int × Nat :=
  let o := Int.tdiv (toInt64 (u64sub t2 t1) + toInt64 (u64sub t3 t4)) 2
  let d := toInt64 (u64sub t4 t1) - toInt64 (u64sub t3 t2)
  (o, if d < 0 then 0 else d.toNat)

/-- threadx_apply_offset_ms: ignore offsets outside [-30000, 30000],
otherwise convert ms to ticks with truncated division, add to the current
32-bit tick value, clamp below at 0 and store truncated to 32 bits (the
tx_time_set of the new ULONG value); the returned value is the resulting
clock.  tps is TX_TIMER_TICKS_PER_SECOND. -/
def threadxApplyOffsetMs (tps : Nat) (offset : Int) (cur : Nat) : Nat :=
  if 30 * 1000 < offset ∨ offset < -(30 * 1000) then cur
  else
    let delta := Int.tdiv (offset * (tps : Int)) 1000
    let newTicks : Int := ((cur % 2 ^ 32 : Nat) : Int) + delta
    let newTicks := if newTicks < 0 then 0 else newTicks
    newTicks.toNat % 2 ^ 32

-- ==================== Concrete scenarios used by counterexamples and witnesses ====================

/-- The ring after pushing 65 distinct frames (ids 1..65) into the empty ring
with no pops. -/
def c2Scenario : RingState := (List.range' 1 65).foldl (fun st i => rbPush st i []) rbInit

/-- A 60-byte message (two fragments) for the staleness boundary scenario. -/
def c4Msg : List Nat := List.range 60

/-- The i-th wire frame of c4Msg as received back over the bus. -/
def c4Frame (i : Nat) : RxFrame :=
  let t := ((canBusSendLarge c4Msg 0 3).getD []).getD i default
  ⟨t.id, t.data⟩

-- ==================== Reassembly invariant used for the round-trip proof ====================

/-- The copied-bytes part of the collecting-slot invariant: every byte whose
chunk has been received holds the sender's byte. -/
def bufHolds (B : List Nat) (S : Finset Nat) (bf : Nat → Nat) : Prop :=
  ∀ j, j < B.length → j / 56 ∈ S → bf j = B.getD j 0

/-- The bitmap part of the collecting-slot invariant. -/
def maskHolds (S : Finset Nat) (m : Nat) : Prop := ∀ j, m.testBit j ↔ j ∈ S

/-- State of the reassembly table while slot 0 is collecting the fragments of
B (indices in S received), all other slots untouched. -/
def ReasmInv (B : List Nat) (R seqv now : Nat) (S : Finset Nat) (slots : List Slot) : Prop :=
  ∃ m bf,
    slots = [⟨true, R, seqv % 256, (B.length + 55) / 56, B.length, 56, now, m, S.card, bf⟩,
             zeroSlot, zeroSlot, zeroSlot] ∧ maskHolds S m ∧ bufHolds B S bf

-- ==================== Helper lemmas ====================

lemma rbNext_lt (v : Nat) : rbNext v < 64 := by
  unfold rbNext; split <;> omega

lemma rbPush_head_lt (st : RingState) (i : Nat) (d : List Nat) : (rbPush st i d).head < 64 := by
  unfold rbPush; split <;> exact rbNext_lt _

lemma rbPush_tail_lt (st : RingState) (i : Nat) (d : List Nat) (ht : st.tail < 64) :
    (rbPush st i d).tail < 64 := by
  unfold rbPush; split
  · exact rbNext_lt _
  · exact ht

lemma rbPop_bounds (st : RingState) (hh : st.head < 64) (ht : st.tail < 64) :
    (rbPop st).2.head < 64 ∧ (rbPop st).2.tail < 64 := by
  unfold rbPop; split
  · exact ⟨hh, ht⟩
  · exact ⟨hh, rbNext_lt _⟩

lemma ring_bounds : ∀ (ops : List RingOp) (st : RingState), st.head < 64 → st.tail < 64 →
    (ops.foldl applyRingOp st).head < 64 ∧ (ops.foldl applyRingOp st).tail < 64
  | [], _, hh, ht => ⟨hh, ht⟩
  | op :: rest, st, hh, ht => by
    rw [List.foldl_cons]
    cases op with
    | push i d => exact ring_bounds rest _ (rbPush_head_lt st i d) (rbPush_tail_lt st i d ht)
    | pop =>
      obtain ⟨h1, h2⟩ := rbPop_bounds st hh ht
      exact ring_bounds rest _ h1 h2

lemma popList_length_le : ∀ (fuel : Nat) (st : RingState), st.head < 64 → st.tail < 64 →
    (popList st fuel).length ≤ (st.head + 64 - st.tail) % 64
  | 0, _, _, _ => by simp [popList]
  | fuel + 1, st, hh, ht => by
    by_cases he : st.head = st.tail
    · simp [popList, rbPop, he]
    · have hrec := popList_length_le fuel { st with tail := rbNext st.tail } hh (rbNext_lt _)
      simp only [popList, rbPop, if_neg he, List.length_cons]
      simp only at hrec
      unfold rbNext at hrec ⊢
      rcases Nat.lt_or_ge (st.tail + 1) 64 with hc | hc
      · rw [if_neg (by omega)] at hrec ⊢
        omega
      · rw [if_pos (by omega)] at hrec ⊢
        omega

-- ==================== Claim theorems ====================

/-- Claim C8, counterexample: the claim quantifies over every length L, but at
L = 65 can_bus_len_to_dlc returns the sentinel, can_bus_dlc_to_len maps it
(masked to 15) to 64, and 64 < 65, so the round-trip lower bound fails. -/
theorem dlc_len_roundtrip_fails_above_64 : ¬ 65 ≤ canBusDlcToLen (canBusLenToDlc 65) := by
  decide

/-- Claim C8, amended to lengths at most 64: len_to_dlc inverts dlc_to_len on
every valid DLC code d < 16, and for every length L ≤ 64 the composition
dlc_to_len (len_to_dlc L) is at least L with equality exactly on the 16 table
lengths. -/
theorem dlc_len_roundtrip :
    (∀ d, d < 16 → canBusLenToDlc (canBusDlcToLen d) = d) ∧
    (∀ L, L < 65 →
      L ≤ canBusDlcToLen (canBusLenToDlc L) ∧
      (canBusDlcToLen (canBusLenToDlc L) = L ↔
        L ∈ [0, 1, 2, 3, 4, 5, 6, 7, 8, 12, 16, 20, 24, 32, 48, 64])) := by
  decide

/-- Witness for dlc_len_roundtrip at d = 9 and L = 12. -/
theorem dlc_len_roundtrip_witness :
    canBusLenToDlc (canBusDlcToLen 9) = 9 ∧ 12 ≤ canBusDlcToLen (canBusLenToDlc 12) :=
  ⟨dlc_len_roundtrip.1 9 (by decide), (dlc_len_roundtrip.2 12 (by decide)).1⟩

/-- Claim C10: can_bus_send_bytes with len > 64 does not fail; it truncates
the payload to its first 64 bytes and hands the driver a single 64-byte frame
with DLC code 15 and the masked standard id. -/
theorem send_bytes_truncates_long_payload (bytes : List Nat) (stdId : Nat)
    (h : 64 < bytes.length) :
    canBusSendBytes bytes stdId = some ⟨stdId % 0x800, FDCAN_DLC_BYTES_64, bytes.take 64⟩ := by
  have hne : ¬ bytes.length = 0 := by omega
  have hmin : min bytes.length 64 = 64 := by omega
  simp [canBusSendBytes, hne, hmin, canBusRoundUpFdLen, canBusLenToDlc, FDCAN_DLC_BYTES_64]

/-- Witness for send_bytes_truncates_long_payload on a 65-byte buffer. -/
theorem send_bytes_truncates_long_payload_witness :
    canBusSendBytes (List.replicate 65 7) 3 = some ⟨3, 15, List.replicate 64 7⟩ := by
  rw [send_bytes_truncates_long_payload (List.replicate 65 7) 3 (by decide)]
  decide

set_option maxRecDepth 100000 in
/-- Claim C2, counterexample: after pushing 65 distinct frames (ids 1..65)
into the empty depth-64 ring with no pops, the first pop does not return
frame number 2.  The ring stores at most 63 frames, so push number 64 already
evicted frame 1 and push number 65 evicted frame 2. -/
theorem ring_overflow_first_pop_not_frame2 : (rbPop c2Scenario).1 ≠ some ⟨2, []⟩ := by
  decide

set_option maxRecDepth 100000 in
/-- Claim C2, amended: the push is drop-oldest (when full, tail advances by
one before the write), and after pushing frames 1..65 with no pops draining
the ring yields exactly frames 3..65 in order: the first pop returns frame 3
(frames 1 and 2 were dropped) and the last pop returns frame 65. -/
theorem ring_overflow_drop_oldest :
    popList c2Scenario 64 = (List.range' 3 63).map fun i => ⟨i, []⟩ := by
  decide

/-- Claim C9: starting from the empty ring, after any interleaving of ISR
pushes and consumer pops the head and tail indices stay below the depth 64,
the head-minus-tail occupancy count modulo 64 never exceeds 63, and at most
63 frames can be drained without an intervening push: one slot is sacrificed
to distinguish full from empty. -/
theorem ring_indices_and_capacity (ops : List RingOp) :
    (ops.foldl applyRingOp rbInit).head < 64 ∧ (ops.foldl applyRingOp rbInit).tail < 64 ∧
    ((ops.foldl applyRingOp rbInit).head + 64 - (ops.foldl applyRingOp rbInit).tail) % 64 ≤ 63 ∧
    (popList (ops.foldl applyRingOp rbInit) 64).length ≤ 63 := by
  obtain ⟨hh, ht⟩ := ring_bounds ops rbInit (by decide) (by decide)
  refine ⟨hh, ht, by omega, ?_⟩
  have := popList_length_le 64 (ops.foldl applyRingOp rbInit) hh ht
  omega

-- ==================== Time sync ====================

lemma toInt64_u64sub (a b : Nat) (ha : a < 2 ^ 62) (hb : b < 2 ^ 62) :
    toInt64 (u64sub a b) = (a : Int) - b := by
  unfold toInt64 u64sub
  split <;> omega

/-- Claim C3: the computed offset is ((t2 - t1) + (t3 - t4)) / 2 and the
computed delay is max 0 ((t4 - t1) - (t3 - t2)) in 64-bit signed millisecond
arithmetic (timestamps below 2^62 keep every intermediate inside int64), and
threadx_apply_offset_ms applies the tick correction iff the offset magnitude
is at most 30000 ms, leaving the clock unchanged otherwise. -/
theorem timesync_offset_clamp (t1 t2 t3 t4 : Nat) (tps : Nat) (off : Int) (cur : Nat)
    (h1 : t1 < 2 ^ 62) (h2 : t2 < 2 ^ 62) (h3 : t3 < 2 ^ 62) (h4 : t4 < 2 ^ 62) :
    (computeOffsetDelay t1 t2 t3 t4).1 = Int.tdiv (((t2 : Int) - t1) + ((t3 : Int) - t4)) 2 ∧
    ((computeOffsetDelay t1 t2 t3 t4).2 : Int) = max 0 (((t4 : Int) - t1) - ((t3 : Int) - t2)) ∧
    (30000 < |off| → threadxApplyOffsetMs tps off cur = cur) ∧
    (|off| ≤ 30000 →
      threadxApplyOffsetMs tps off cur =
        (((cur % 2 ^ 32 : Nat) : Int) + Int.tdiv (off * (tps : Int)) 1000).toNat % 2 ^ 32) := by
  refine ⟨?_, ?_, ?_, ?_⟩
  · simp only [computeOffsetDelay, toInt64_u64sub t2 t1 h2 h1, toInt64_u64sub t3 t4 h3 h4]
  · simp only [computeOffsetDelay, toInt64_u64sub t4 t1 h4 h1, toInt64_u64sub t3 t2 h3 h2]
    split
    · rename_i hneg
      rw [max_eq_left (by omega)]
      simp
    · rename_i hpos
      rw [max_eq_right (by omega)]
      exact Int.toNat_of_nonneg (by omega)
  · intro habs
    unfold threadxApplyOffsetMs
    rw [if_pos (by rcases lt_abs.mp habs with h | h <;> [left; right] <;> omega)]
  · intro habs
    obtain ⟨hlo, hhi⟩ := abs_le.mp habs
    unfold threadxApplyOffsetMs
    rw [if_neg (by omega)]
    simp only []
    split <;> omega

/-- Witness for timesync_offset_clamp: the spec scenario t1 = 10000,
t2 = 10100, t3 = 10110, t4 = 10020 gives offset 95 and delay 10; an offset of
31000 ms leaves the clock at 5000 unchanged, and offset 95 at tick 10020 with
100 ticks per second moves the clock to 10029. -/
theorem timesync_offset_clamp_witness :
    (computeOffsetDelay 10000 10100 10110 10020).1 = 95 ∧
    (computeOffsetDelay 10000 10100 10110 10020).2 = 10 ∧
    threadxApplyOffsetMs 100 31000 5000 = 5000 ∧
    threadxApplyOffsetMs 100 95 10020 = 10029 := by
  obtain ⟨a, b, c, -⟩ :=
    timesync_offset_clamp 10000 10100 10110 10020 100 31000 5000
      (by norm_num) (by norm_num) (by norm_num) (by norm_num)
  obtain ⟨-, -, -, d⟩ :=
    timesync_offset_clamp 10000 10100 10110 10020 100 95 10020
      (by norm_num) (by norm_num) (by norm_num) (by norm_num)
  refine ⟨a.trans (by decide), Nat.cast_inj.mp (b.trans (by decide)),
    c (by decide), (d (by decide)).trans (by decide)⟩

-- ==================== handle_rx_frame evaluation lemmas ====================

lemma reasmGetSlot_init (stdId seqv now : Nat) :
    reasmGetSlot initSlots stdId seqv now =
      ([⟨true, stdId, seqv, 0, 0, 0, now, 0, 0, fun _ => 0⟩, zeroSlot, zeroSlot, zeroSlot], 0) :=
  rfl

lemma reasmGetSlot_match (s0 : Slot) (stdId seqv now : Nat)
    (ha : s0.active = true) (hid : s0.std_id = stdId) (hseq : s0.seq = seqv) :
    reasmGetSlot [s0, zeroSlot, zeroSlot, zeroSlot] stdId seqv now =
      ([{ s0 with last_tick := now }, zeroSlot, zeroSlot, zeroSlot], 0) := by
  unfold reasmGetSlot findFirstIdx
  simp [ha, hid, hseq, List.getD_cons_zero]

/-- Claim C5: for a frame recognized as a fragment (length at least 8 and
matching magic), dropping the frame with no slot modified and no subscriber
notified - for every reassembly-table state - happens exactly when
frag_cnt = 0, or frag_idx >= frag_cnt, or frag_cnt > 64, or total_len = 0,
or total_len > 2048. -/
theorem frag_hdr_reject_iff (f : RxFrame) (now : Nat)
    (hlen : 8 ≤ f.data.length) (hmagic : (decodeFragHdr f.data).magic = 0x5344) :
    (∀ slots, handleRxFrame slots f now = (slots, [])) ↔
      ((decodeFragHdr f.data).frag_cnt = 0 ∨
       (decodeFragHdr f.data).frag_cnt ≤ (decodeFragHdr f.data).frag_idx ∨
       64 < (decodeFragHdr f.data).frag_cnt ∨
       (decodeFragHdr f.data).total_len = 0 ∨
       2048 < (decodeFragHdr f.data).total_len) := by
  constructor
  · intro hall
    by_contra hbad
    push_neg at hbad
    obtain ⟨h1, h2, h3, h4, h5⟩ := hbad
    have heval := hall initSlots
    simp only [handleRxFrame] at heval
    rw [if_pos hlen, if_pos hmagic, if_neg h1,
      if_neg (show ¬ (decodeFragHdr f.data).frag_cnt ≤ (decodeFragHdr f.data).frag_idx by omega),
      if_neg (show ¬ 64 < (decodeFragHdr f.data).frag_cnt by omega), if_neg h4,
      if_neg (show ¬ 2048 < (decodeFragHdr f.data).total_len by omega),
      reasmGetSlot_init] at heval
    by_cases hoff : (decodeFragHdr f.data).total_len ≤
        (decodeFragHdr f.data).frag_idx * (f.data.length - 8)
    · simp [reasmAccept, hoff, initSlots, zeroSlot, List.getD_cons_zero, Slot.mk.injEq] at heval
    · by_cases hone : (decodeFragHdr f.data).frag_cnt = 1
      · simp [reasmAccept, hoff, hone, Nat.zero_testBit, initSlots, zeroSlot,
          List.getD_cons_zero, Slot.mk.injEq] at heval
      · simp [reasmAccept, hoff, Ne.symm hone, Nat.zero_testBit, initSlots, zeroSlot,
          List.getD_cons_zero, Slot.mk.injEq] at heval
  · intro hbad slots
    simp only [handleRxFrame]
    rw [if_pos hlen, if_pos hmagic]
    by_cases c1 : (decodeFragHdr f.data).frag_cnt = 0
    · rw [if_pos c1]
    · rw [if_neg c1]
      by_cases c2 : (decodeFragHdr f.data).frag_cnt ≤ (decodeFragHdr f.data).frag_idx
      · rw [if_pos c2]
      · rw [if_neg c2]
        by_cases c3 : 64 < (decodeFragHdr f.data).frag_cnt
        · rw [if_pos c3]
        · rw [if_neg c3]
          by_cases c4 : (decodeFragHdr f.data).total_len = 0
          · rw [if_pos c4]
          · rw [if_neg c4]
            rw [if_pos (by rcases hbad with h | h | h | h | h <;> omega)]

/-- Witness for frag_hdr_reject_iff: a frame carrying the magic but
frag_cnt = 0 is dropped from the fresh table with no notification. -/
theorem frag_hdr_reject_iff_witness :
    handleRxFrame initSlots ⟨5, [68, 83, 0, 0, 0, 0, 0, 0]⟩ 7 = (initSlots, []) :=
  (frag_hdr_reject_iff ⟨5, [68, 83, 0, 0, 0, 0, 0, 0]⟩ 7 (by decide) (by decide)).mpr
    (Or.inl (by decide)) initSlots

lemma handle_snd_empty_of_mismatch (f : RxFrame) (now : Nat) (hlen : 8 ≤ f.data.length)
    (hmagic : (decodeFragHdr f.data).magic = 0x5344) (s0 : Slot)
    (ha : s0.active = true) (hid : s0.std_id = f.std_id)
    (hseq : s0.seq = (decodeFragHdr f.data).seq)
    (hc0 : ¬ s0.frag_cnt = 0) (hcm : s0.frag_cnt ≠ (decodeFragHdr f.data).frag_cnt) :
    (handleRxFrame [s0, zeroSlot, zeroSlot, zeroSlot] f now).2 = [] := by
  simp only [handleRxFrame]
  rw [if_pos hlen, if_pos hmagic,
    reasmGetSlot_match s0 f.std_id (decodeFragHdr f.data).seq now ha hid hseq]
  split_ifs <;> simp_all

/-- Claim C7: a received frame is delivered raw to the subscribers - exact
bytes, for every table state and tick, with the table unchanged - if and only
if it is not recognized as a fragment, i.e. unless its length is at least the
8-byte header and its first two bytes decode little-endian to magic 0x5344. -/
theorem raw_delivery_iff (f : RxFrame) :
    (∀ slots now, handleRxFrame slots f now = (slots, [f.data])) ↔
      ¬ (8 ≤ f.data.length ∧ (decodeFragHdr f.data).magic = 0x5344) := by
  constructor
  · intro hall hrec
    obtain ⟨hlen, hmagic⟩ := hrec
    by_cases hc1 : (decodeFragHdr f.data).frag_cnt = 1
    · have hempty := handle_snd_empty_of_mismatch f 0 hlen hmagic
        ⟨true, f.std_id, (decodeFragHdr f.data).seq, 2, 1, 0, 0, 0, 0, fun _ => 0⟩
        rfl rfl rfl (show ¬ (2 : Nat) = 0 by omega)
        (show (2 : Nat) ≠ (decodeFragHdr f.data).frag_cnt by omega)
      rw [hall _ 0] at hempty
      simp at hempty
    · have hempty := handle_snd_empty_of_mismatch f 0 hlen hmagic
        ⟨true, f.std_id, (decodeFragHdr f.data).seq, 1, 1, 0, 0, 0, 0, fun _ => 0⟩
        rfl rfl rfl (show ¬ (1 : Nat) = 0 by omega)
        (show (1 : Nat) ≠ (decodeFragHdr f.data).frag_cnt by omega)
      rw [hall _ 0] at hempty
      simp at hempty
  · intro hrec slots now
    simp only [handleRxFrame]
    by_cases hlen : 8 ≤ f.data.length
    · rw [if_pos hlen, if_neg (fun hm => hrec ⟨hlen, hm⟩)]
    · rw [if_neg hlen]

-- ==================== Staleness sweep (claim C4) ====================

lemma age32_self (now : Nat) : age32 now now = 0 := by
  unfold age32; omega

lemma getD_set_self : ∀ (l : List Slot) (i : Nat) (v : Slot),
    (l.set i v).getD i zeroSlot = if i < l.length then v else zeroSlot
  | [], i, v => by simp [List.getD]
  | _ :: rest, 0, v => by simp
  | a :: rest, i + 1, v => by
    simp only [List.set, List.getD_cons_succ, List.length_cons]
    rw [getD_set_self rest i v]
    by_cases h : i < rest.length
    · rw [if_pos h, if_pos (by omega)]
    · rw [if_neg h, if_neg (by omega)]

lemma reasmGetSlot_mem (slots : List Slot) (stdId seqv now : Nat) :
    ∀ s' ∈ (reasmGetSlot slots stdId seqv now).1, s' ∈ slots ∨ s'.last_tick = now := by
  intro s' hs'
  unfold reasmGetSlot at hs'
  split at hs'
  · simp only at hs'
    rcases List.mem_or_eq_of_mem_set hs' with h | h
    · exact Or.inl h
    · subst h; exact Or.inr rfl
  · split at hs' <;>
      (simp only at hs'
       rcases List.mem_or_eq_of_mem_set hs' with h | h
       · exact Or.inl h
       · subst h; exact Or.inr rfl)

lemma reasmGetSlot_chosen (slots : List Slot) (stdId seqv now : Nat) :
    ((reasmGetSlot slots stdId seqv now).1.getD (reasmGetSlot slots stdId seqv now).2
      zeroSlot).last_tick = now ∨
    ((reasmGetSlot slots stdId seqv now).1.getD (reasmGetSlot slots stdId seqv now).2
      zeroSlot).active = false := by
  unfold reasmGetSlot
  split
  · simp only [getD_set_self]
    split
    · exact Or.inl rfl
    · exact Or.inr rfl
  · split
    · simp only [getD_set_self]
      split
      · exact Or.inl rfl
      · exact Or.inr rfl
    · simp only [getD_set_self]
      split
      · exact Or.inl rfl
      · exact Or.inr rfl

lemma reasmAccept_mem (slots : List Slot) (idx : Nat) (s : Slot) (hdr : FragHdr)
    (payload : List Nat) (payloadLen now : Nat) :
    ∀ s' ∈ (reasmAccept slots idx s hdr payload payloadLen now).1,
      s' ∈ slots ∨ s'.last_tick = now ∨ s'.active = false ∨ s' = s := by
  intro s' hs'
  unfold reasmAccept at hs'
  simp only [] at hs'
  split at hs'
  · rcases List.mem_or_eq_of_mem_set hs' with h | h
    · exact Or.inl h
    · exact Or.inr (Or.inr (Or.inr h))
  · split at hs' <;> split at hs' <;>
      (rcases List.mem_or_eq_of_mem_set hs' with h | h
       · exact Or.inl h
       · subst h
         first
           | exact Or.inr (Or.inr (Or.inl rfl))
           | exact Or.inr (Or.inl rfl))

set_option maxHeartbeats 2000000 in
lemma handle_slot_mem (slots : List Slot) (f : RxFrame) (now : Nat) :
    ∀ s' ∈ (handleRxFrame slots f now).1, s' ∈ slots ∨ s'.last_tick = now ∨ s'.active = false := by
  intro s' hs'
  have hmem := reasmGetSlot_mem slots f.std_id (decodeFragHdr f.data).seq now
  have hch := reasmGetSlot_chosen slots f.std_id (decodeFragHdr f.data).seq now
  unfold handleRxFrame at hs'
  split at hs'
  case isFalse => exact Or.inl hs'
  simp only [] at hs'
  split at hs'
  case isFalse => exact Or.inl hs'
  split at hs'
  case isTrue => exact Or.inl hs'
  split at hs'
  case isTrue => exact Or.inl hs'
  split at hs'
  case isTrue => exact Or.inl hs'
  split at hs'
  case isTrue => exact Or.inl hs'
  split at hs'
  case isTrue => exact Or.inl hs'
  split at hs'
  · -- fresh slot: init branch, ends in reasmAccept on a slot derived from the chosen one
    rcases reasmAccept_mem _ _ _ _ _ _ _ s' hs' with h | h | h | h
    · rcases hmem s' h with h1 | h1
      · exact Or.inl h1
      · exact Or.inr (Or.inl h1)
    · exact Or.inr (Or.inl h)
    · exact Or.inr (Or.inr h)
    · subst h
      rcases hch with h1 | h1
      · exact Or.inr (Or.inl h1)
      · exact Or.inr (Or.inr h1)
  · split at hs'
    · -- frag_cnt mismatch: slot reset in place
      rcases List.mem_or_eq_of_mem_set hs' with h | h
      · rcases hmem s' h with h1 | h1
        · exact Or.inl h1
        · exact Or.inr (Or.inl h1)
      · subst h; exact Or.inr (Or.inr rfl)
    · split at hs'
      · -- total_len mismatch: slot reset in place
        rcases List.mem_or_eq_of_mem_set hs' with h | h
        · rcases hmem s' h with h1 | h1
          · exact Or.inl h1
          · exact Or.inr (Or.inl h1)
        · subst h; exact Or.inr (Or.inr rfl)
      · rcases reasmAccept_mem _ _ _ _ _ _ _ s' hs' with h | h | h | h
        · rcases hmem s' h with h1 | h1
          · exact Or.inl h1
          · exact Or.inr (Or.inl h1)
        · exact Or.inr (Or.inl h)
        · exact Or.inr (Or.inr h)
        · subst h
          rcases hch with h1 | h1
          · exact Or.inr (Or.inl h1)
          · exact Or.inr (Or.inr h1)

lemma expire_fresh (slots : List Slot) (now : Nat) :
    ∀ s ∈ reasmExpireOld slots now, s.active = true → age32 now s.last_tick ≤ 250 := by
  intro s hs ha
  unfold reasmExpireOld at hs
  obtain ⟨t, ht, heq⟩ := List.mem_map.mp hs
  by_cases hcond : t.active = true ∧ 250 < age32 now t.last_tick
  · rw [if_pos hcond] at heq
    subst heq
    simp [resetSlot] at ha
  · rw [if_neg hcond] at heq
    subst heq
    push_neg at hcond
    have := hcond ha
    omega

lemma handle_keeps_fresh (slots : List Slot) (f : RxFrame) (now : Nat)
    (h : ∀ s ∈ slots, s.active = true → age32 now s.last_tick ≤ 250) :
    ∀ s ∈ (handleRxFrame slots f now).1, s.active = true → age32 now s.last_tick ≤ 250 := by
  intro s hs ha
  rcases handle_slot_mem slots f now s hs with hm | hl | hf
  · exact h s hm ha
  · rw [hl, age32_self]; omega
  · rw [hf] at ha; cases ha

lemma scanl_states_fresh : ∀ (frames : List RxFrame) (st : List Slot) (now : Nat),
    (∀ s ∈ st, s.active = true → age32 now s.last_tick ≤ 250) →
    ∀ st' ∈ frames.scanl (fun st f => (handleRxFrame st f now).1) st,
      ∀ s ∈ st', s.active = true → age32 now s.last_tick ≤ 250
  | [], st, now, h, st', hst' => by
    rw [List.scanl_nil] at hst'
    rcases List.mem_singleton.mp hst' with rfl
    exact h
  | f :: rest, st, now, h, st', hst' => by
    rw [List.scanl_cons] at hst'
    rcases List.mem_append.mp hst' with h1 | h1
    · rcases List.mem_singleton.mp h1 with rfl
      exact h
    · exact scanl_states_fresh rest _ now (handle_keeps_fresh st f now h) st' h1

set_option maxRecDepth 100000 in
/-- Claim C4, counterexample: a partial reassembly with no accepted fragment
for exactly 250 ms still contributes to a later completion.  Fragment 0 of a
two-fragment 60-byte message is processed at tick 0; the worker runs again at
tick 250 (age = 250, not strictly above the 250 ms timeout, so the sweep
keeps the slot) and fragment 1 completes the message, producing a
notification - refuting the claim that at least 250 ms of inactivity always
resets the slot before it can contribute. -/
theorem reasm_boundary_250_still_completes :
    (canBusProcessRx (canBusProcessRx initSlots [c4Frame 0] 0).1 [c4Frame 1] 250).2 =
      [List.range 60] := by
  decide

/-- Claim C4, amended (inactivity strictly above 250 ms): every frame handled
by can_bus_process_rx is processed in a table state where every active slot
has age at most 250 ms relative to the tick of the sweep - slots whose age
exceeded 250 ms were reset to FREE first - and handle_rx_frame refreshes
last_activity on every slot it touches: a slot of the post-state is either
untouched (a slot of the pre-state), or carries last_tick = now, or is FREE. -/
theorem stale_slots_reset_before_processing (slots : List Slot) (now : Nat)
    (frames : List RxFrame) :
    (∀ st' ∈ processStates slots now frames, ∀ s ∈ st',
       s.active = true → age32 now s.last_tick ≤ 250) ∧
    (∀ st f now1 st' ns, handleRxFrame st f now1 = (st', ns) →
       ∀ s' ∈ st', s' ∈ st ∨ s'.last_tick = now1 ∨ s'.active = false) := by
  constructor
  · exact scanl_states_fresh frames _ now (expire_fresh slots now)
  · intro st f now1 st' ns h s' hs'
    apply handle_slot_mem st f now1 s'
    rw [h]
    exact hs'

/-- Witness for stale_slots_reset_before_processing: a raw two-byte frame
handled on the fresh table leaves the table unchanged, so its slots are
slots of the pre-state. -/
theorem stale_slots_reset_before_processing_witness :
    zeroSlot ∈ initSlots ∨ zeroSlot.last_tick = 3 ∨ zeroSlot.active = false :=
  (stale_slots_reset_before_processing initSlots 3 []).2 initSlots ⟨9, [1, 2]⟩ 3 initSlots
    [[1, 2]] rfl zeroSlot (by simp [initSlots])

-- ==================== Send path lemmas (claims C6 and C1) ====================

lemma encodeFragHdrBytes_length (a b c d e : Nat) :
    (encodeFragHdrBytes a b c d e).length = 8 := rfl

lemma fragWire_length (bytes : List Nat) (seqv cnt i : Nat) :
    (fragWire bytes seqv cnt i).length = 64 := by
  unfold fragWire
  simp [encodeFragHdrBytes]

lemma decodeFragHdr_encode (seqv idx cnt flags totalLen : Nat) (rest : List Nat)
    (hidx : idx < 256) (hcnt : cnt < 256) (hflags : flags < 256) (htl : totalLen < 65536) :
    decodeFragHdr (encodeFragHdrBytes seqv idx cnt flags totalLen ++ rest) =
      ⟨0x5344, seqv % 256, idx, cnt, flags, totalLen⟩ := by
  unfold decodeFragHdr encodeFragHdrBytes
  simp only [List.cons_append, List.nil_append, List.getD_cons_zero, List.getD_cons_succ,
    FragHdr.mk.injEq, true_and, and_true]
  omega

lemma flags_lt (i cnt : Nat) :
    ((if i = 0 then 1 else 0) ||| (if i = cnt - 1 then 2 else 0)) < 256 := by
  split_ifs <;> decide

lemma decodeFragHdr_fragWire (B : List Nat) (q cnt i : Nat) (hi : i < 256) (hcnt : cnt < 256)
    (hL : B.length < 65536) :
    decodeFragHdr (fragWire B q cnt i) =
      ⟨0x5344, q % 256, i, cnt,
       (if i = 0 then 1 else 0) ||| (if i = cnt - 1 then 2 else 0), B.length⟩ := by
  unfold fragWire
  rw [List.append_assoc, decodeFragHdr_encode _ _ _ _ _ _ hi hcnt (flags_lt i cnt) hL]

lemma sendLargeGo_eq (bytes : List Nat) (seqv : Nat) (hL : 1 ≤ bytes.length) :
    ∀ (rem idx : Nat), rem + idx = (bytes.length + 55) / 56 →
      sendLargeGo bytes seqv ((bytes.length + 55) / 56) rem idx (56 * idx) =
        (List.range' idx rem).map (fragWire bytes seqv ((bytes.length + 55) / 56))
  | 0, idx, _ => by simp [sendLargeGo]
  | rem + 1, idx, h => by
    simp only [sendLargeGo, List.range'_succ, List.map_cons]
    congr 1
    rcases Nat.eq_zero_or_pos rem with hrem | hrem
    · subst hrem
      simp [sendLargeGo]
    · rw [show 56 * idx + min (bytes.length - 56 * idx) 56 = 56 * (idx + 1) by omega]
      exact sendLargeGo_eq bytes seqv hL rem (idx + 1) (by omega)

lemma canBusSendBytes_len64 (fr : List Nat) (stdId : Nat) (hfr : fr.length = 64) :
    canBusSendBytes fr stdId = some ⟨stdId % 0x800, 15, fr⟩ := by
  unfold canBusSendBytes
  rw [if_neg (show ¬ fr.length = 0 by omega)]
  simp only [hfr]
  norm_num [canBusRoundUpFdLen, canBusLenToDlc, FDCAN_DLC_BYTES_64, List.take_of_length_le, hfr]

lemma mapM_sendBytes (stdId : Nat) : ∀ (l : List (List Nat)), (∀ fr ∈ l, fr.length = 64) →
    l.mapM (fun fr => canBusSendBytes fr stdId) =
      some (l.map fun fr => ⟨stdId % 0x800, 15, fr⟩)
  | [], _ => rfl
  | fr :: rest, h => by
    simp only [List.mapM_cons]
    rw [canBusSendBytes_len64 fr stdId (h fr (List.mem_cons_self fr rest)),
      mapM_sendBytes stdId rest (fun g hg => h g (List.mem_cons_of_mem fr hg))]
    rfl

lemma canBusSendLarge_eq (bytes : List Nat) (seqv stdId : Nat)
    (h1 : 1 ≤ bytes.length) (h2 : bytes.length ≤ 14280) :
    canBusSendLarge bytes seqv stdId =
      some ((List.range ((bytes.length + 55) / 56)).map
        fun i => ⟨stdId % 0x800, 15, fragWire bytes seqv ((bytes.length + 55) / 56) i⟩) := by
  unfold canBusSendLarge
  rw [if_neg (by omega), if_neg (by omega)]
  simp only []
  rw [if_neg (show ¬ ((bytes.length + (64 - 8) - 1) / (64 - 8) = 0) by omega)]
  rw [if_neg (show ¬ 255 < (bytes.length + (64 - 8) - 1) / (64 - 8) by omega)]
  unfold sendLargeFrames
  have hnorm : (bytes.length + (64 - 8) - 1) / (64 - 8) = (bytes.length + 55) / 56 := by norm_num
  rw [hnorm, Nat.sub_zero]
  have hgo := sendLargeGo_eq bytes seqv h1 ((bytes.length + 55) / 56) 0 (by omega)
  rw [Nat.mul_zero] at hgo
  rw [hgo]
  rw [mapM_sendBytes stdId _ (by
    intro fr hfr
    obtain ⟨i, -, rfl⟩ := List.mem_map.mp hfr
    exact fragWire_length bytes seqv _ i)]
  simp [List.map_map, List.range_eq_range', Function.comp]

/-- Claim C6: a successful can_bus_send_large of an L-byte buffer emits
ceil(L / 56) fragments; every emitted frame is a 64-byte wire frame (DLC code
15) on the masked standard id whose bytes are the little-endian 8-byte header
followed by the i-th 56-byte chunk of the buffer, the final chunk shorter and
zero-padded, and the decoded header carries magic 0x5344, the sequence byte,
frag_idx = i, frag_cnt = ceil(L / 56), FIRST iff i = 0 and LAST iff
i = frag_cnt - 1 in the flags, and total_len = L. -/
theorem send_large_fragments (B : List Nat) (seqv sid : Nat)
    (h1 : 1 ≤ B.length) (h2 : B.length ≤ 14280) :
    ∃ txs, canBusSendLarge B seqv sid = some txs ∧
      txs.length = (B.length + 55) / 56 ∧
      ∀ i, i < (B.length + 55) / 56 →
        (txs.getD i default).id = sid % 0x800 ∧
        (txs.getD i default).dlc = FDCAN_DLC_BYTES_64 ∧
        (txs.getD i default).data.length = 64 ∧
        (txs.getD i default).data =
          encodeFragHdrBytes seqv i ((B.length + 55) / 56)
            ((if i = 0 then 1 else 0) ||| (if i = (B.length + 55) / 56 - 1 then 2 else 0))
            B.length ++
          (B.drop (56 * i)).take (min (B.length - 56 * i) 56) ++
          List.replicate (56 - min (B.length - 56 * i) 56) 0 ∧
        decodeFragHdr (txs.getD i default).data =
          ⟨0x5344, seqv % 256, i, (B.length + 55) / 56,
           (if i = 0 then 1 else 0) ||| (if i = (B.length + 55) / 56 - 1 then 2 else 0),
           B.length⟩ := by
  refine ⟨_, canBusSendLarge_eq B seqv sid h1 h2, by simp, ?_⟩
  intro i hi
  have hgetD : ((List.range ((B.length + 55) / 56)).map
      fun i => (⟨sid % 0x800, 15, fragWire B seqv ((B.length + 55) / 56) i⟩ : TxFrame)).getD i
        default = ⟨sid % 0x800, 15, fragWire B seqv ((B.length + 55) / 56) i⟩ := by
    rw [List.getD_eq_getElem?_getD, List.getElem?_eq_getElem (by simpa using hi)]
    simp
  rw [hgetD]
  refine ⟨rfl, rfl, fragWire_length B seqv _ i, rfl, ?_⟩
  exact decodeFragHdr_fragWire B seqv _ i (by omega) (by omega) (by omega)

/-- Witness for send_large_fragments: the spec scenario, a 150-byte buffer,
fragments into exactly three frames. -/
theorem send_large_fragments_witness :
    ∃ txs, canBusSendLarge (List.range 150) 7 3 = some txs ∧ txs.length = 3 := by
  obtain ⟨txs, hsend, hlen, -⟩ :=
    send_large_fragments (List.range 150) 7 3 (by simp) (by simp)
  exact ⟨txs, hsend, by simpa using hlen⟩

-- ==================== Round-trip machinery (claim C1) ====================

lemma reasmExpireOld_init (now : Nat) : reasmExpireOld initSlots now = initSlots := rfl

/-- The loop body of can_bus_process_rx (the step folded by processList). -/
def processStep (now : Nat) (a : List Slot × List (List Nat)) (f : RxFrame) :
    List Slot × List (List Nat) :=
  let r := handleRxFrame a.1 f now
  (r.1, a.2 ++ r.2)

lemma processList_nil (slots : List Slot) (now : Nat) :
    processList slots [] now = (slots, []) := rfl

lemma foldl_processStep : ∀ (fs : List RxFrame) (now : Nat) (st : List Slot)
    (acc : List (List Nat)),
    fs.foldl (processStep now) (st, acc) =
      ((fs.foldl (processStep now) (st, [])).1,
       acc ++ (fs.foldl (processStep now) (st, [])).2)
  | [], _, _, _ => by simp
  | f :: fs, now, st, acc => by
    simp only [List.foldl_cons]
    rw [show processStep now (st, acc) f =
          ((handleRxFrame st f now).1, acc ++ (handleRxFrame st f now).2) from rfl,
        show processStep now (st, []) f =
          ((handleRxFrame st f now).1, [] ++ (handleRxFrame st f now).2) from rfl,
        foldl_processStep fs now (handleRxFrame st f now).1
          (acc ++ (handleRxFrame st f now).2),
        foldl_processStep fs now (handleRxFrame st f now).1
          ([] ++ (handleRxFrame st f now).2)]
    simp [List.append_assoc]

lemma processList_cons (slots : List Slot) (f : RxFrame) (fs : List RxFrame) (now : Nat) :
    processList slots (f :: fs) now =
      ((processList (handleRxFrame slots f now).1 fs now).1,
       (handleRxFrame slots f now).2 ++
         (processList (handleRxFrame slots f now).1 fs now).2) := by
  show (f :: fs).foldl (processStep now) (slots, []) = _
  rw [List.foldl_cons,
    show processStep now (slots, []) f =
      ((handleRxFrame slots f now).1, [] ++ (handleRxFrame slots f now).2) from rfl,
    foldl_processStep fs now (handleRxFrame slots f now).1
      ([] ++ (handleRxFrame slots f now).2)]
  rfl

lemma fragWire_drop8 (B : List Nat) (q cnt i : Nat) :
    (fragWire B q cnt i).drop 8 =
      (B.drop (56 * i)).take (min (B.length - 56 * i) 56) ++
      List.replicate (56 - min (B.length - 56 * i) 56) 0 := by
  unfold fragWire
  rw [List.append_assoc, List.drop_left' (by rfl)]

lemma payload_take (B : List Nat) (i : Nat) :
    ((B.drop (56 * i)).take (min (B.length - 56 * i) 56) ++
      List.replicate (56 - min (B.length - 56 * i) 56) 0).take
        (min 56 (B.length - 56 * i)) =
      (B.drop (56 * i)).take (min (B.length - 56 * i) 56) := by
  apply List.take_left'
  simp only [List.length_take, List.length_drop]
  omega

lemma memcpy_chunk (B : List Nat) (S : Finset Nat) (bf : Nat → Nat) (i : Nat)
    (hbf : bufHolds B S bf) (h : 56 * i < B.length) :
    bufHolds B (insert i S)
      (memcpyAt bf (56 * i) ((B.drop (56 * i)).take (min (B.length - 56 * i) 56))) := by
  intro j hj hmem
  unfold memcpyAt
  have hlen : ((B.drop (56 * i)).take (min (B.length - 56 * i) 56)).length =
      min (B.length - 56 * i) 56 := by
    simp only [List.length_take, List.length_drop]
    omega
  rw [hlen]
  by_cases hc : 56 * i ≤ j ∧ j < 56 * i + min (B.length - 56 * i) 56
  · rw [if_pos hc]
    rw [List.getD_eq_getElem?_getD, List.getElem?_take_of_lt (by omega),
      List.getElem?_drop, show 56 * i + (j - 56 * i) = j by omega,
      ← List.getD_eq_getElem?_getD]
  · rw [if_neg hc]
    rcases Finset.mem_insert.mp hmem with heq | hS
    · exact absurd hc (by omega)
    · exact hbf j hj hS

lemma maskHolds_insert (S : Finset Nat) (m i : Nat) (hm : maskHolds S m) :
    maskHolds (insert i S) (m ||| 1 <<< i) := by
  intro j
  simp only [Nat.testBit_or, Nat.one_shiftLeft, Nat.testBit_two_pow, Finset.mem_insert,
    Bool.or_eq_true, decide_eq_true_eq, hm j]
  tauto

lemma bufHolds_full_map (B : List Nat) (bf : Nat → Nat)
    (hbf : bufHolds B (Finset.range ((B.length + 55) / 56)) bf) :
    (List.range B.length).map bf = B := by
  apply List.ext_getElem (by simp)
  intro k h1 h2
  simp only [List.getElem_map, List.getElem_range]
  rw [hbf k h2 (Finset.mem_range.mpr (by omega)),
    List.getD_eq_getElem?_getD, List.getElem?_eq_getElem h2]
  rfl

set_option maxHeartbeats 2000000 in
lemma reasmAccept_step (B : List Nat) (t : Slot) (R q now flg : Nat) (S : Finset Nat)
    (m c : Nat) (bf : Nat → Nat) (i : Nat)
    (h1 : 1 ≤ B.length) (h2 : B.length ≤ 2048)
    (hi : i < (B.length + 55) / 56) (hiS : i ∉ S)
    (hsub : S ⊆ Finset.range ((B.length + 55) / 56))
    (hm : maskHolds S m) (hc : c = S.card) (hbf : bufHolds B S bf) :
    (c + 1 < (B.length + 55) / 56 →
      reasmAccept [t, zeroSlot, zeroSlot, zeroSlot] 0
          ⟨true, R, q % 256, (B.length + 55) / 56, B.length, 56, now, m, c, bf⟩
          ⟨0x5344, q % 256, i, (B.length + 55) / 56, flg, B.length⟩
          ((fragWire B q ((B.length + 55) / 56) i).drop 8) 56 now =
        ([⟨true, R, q % 256, (B.length + 55) / 56, B.length, 56, now,
            m ||| 1 <<< i, c + 1,
            memcpyAt bf (56 * i) ((B.drop (56 * i)).take (min (B.length - 56 * i) 56))⟩,
          zeroSlot, zeroSlot, zeroSlot], [])) ∧
    (c + 1 = (B.length + 55) / 56 →
      (reasmAccept [t, zeroSlot, zeroSlot, zeroSlot] 0
          ⟨true, R, q % 256, (B.length + 55) / 56, B.length, 56, now, m, c, bf⟩
          ⟨0x5344, q % 256, i, (B.length + 55) / 56, flg, B.length⟩
          ((fragWire B q ((B.length + 55) / 56) i).drop 8) 56 now).2 = [B]) := by
  subst hc
  have hoff : 56 * i < B.length := by omega
  have hmask : ¬ Nat.testBit m i = true := fun hbit => hiS ((hm i).mp hbit)
  constructor
  · intro hlt
    unfold reasmAccept
    simp only [List.set_cons_zero]
    rw [Nat.mul_comm i 56]
    rw [if_neg (show ¬ B.length ≤ 56 * i by omega)]
    rw [fragWire_drop8, payload_take]
    rw [if_neg hmask]
    rw [if_neg (show ¬ S.card + 1 = (B.length + 55) / 56 by omega)]
  · intro heq
    unfold reasmAccept
    simp only [List.set_cons_zero]
    rw [Nat.mul_comm i 56]
    rw [if_neg (show ¬ B.length ≤ 56 * i by omega)]
    rw [fragWire_drop8, payload_take]
    rw [if_neg hmask]
    rw [if_pos heq]
    have hins : insert i S = Finset.range ((B.length + 55) / 56) := by
      apply Finset.eq_of_subset_of_card_le
      · exact Finset.insert_subset (Finset.mem_range.mpr hi) hsub
      · rw [Finset.card_range, Finset.card_insert_of_not_mem hiS]
        omega
    have hbf2 := memcpy_chunk B S bf i hbf hoff
    rw [hins] at hbf2
    exact congrArg (fun x => [x]) (bufHolds_full_map B _ hbf2)


set_option maxHeartbeats 4000000 in
lemma handle_step (B : List Nat) (R q now : Nat) (S : Finset Nat) (slots : List Slot) (i : Nat)
    (h1 : 1 ≤ B.length) (h2 : B.length ≤ 2048)
    (hi : i < (B.length + 55) / 56) (hiS : i ∉ S)
    (hsub : S ⊆ Finset.range ((B.length + 55) / 56))
    (hInv : (S = ∅ ∧ slots = initSlots) ∨ ReasmInv B R q now S slots) :
    (S.card + 1 < (B.length + 55) / 56 →
      ∃ slots', handleRxFrame slots ⟨R, fragWire B q ((B.length + 55) / 56) i⟩ now =
          (slots', []) ∧ ReasmInv B R q now (insert i S) slots') ∧
    (S.card + 1 = (B.length + 55) / 56 →
      (handleRxFrame slots ⟨R, fragWire B q ((B.length + 55) / 56) i⟩ now).2 = [B]) := by
  have hn37 : (B.length + 55) / 56 ≤ 37 := by omega
  have hdec := decodeFragHdr_fragWire B q ((B.length + 55) / 56) i (by omega) (by omega)
    (by omega)
  have hca : (insert i S).card = S.card + 1 := Finset.card_insert_of_not_mem hiS
  have hoff : 56 * i < B.length := by omega
  rcases hInv with ⟨hS, hslots⟩ | ⟨m, bf, hslots, hm, hbf⟩
  · subst hS
    subst hslots
    have key := reasmAccept_step B ⟨true, R, q % 256, 0, 0, 0, now, 0, 0, fun _ => 0⟩ R q now
      ((if i = 0 then 1 else 0) ||| (if i = (B.length + 55) / 56 - 1 then 2 else 0))
      ∅ 0 0 (fun _ => 0) i h1 h2 hi (Finset.not_mem_empty i) (Finset.empty_subset _)
      (fun j => by simp [Nat.zero_testBit]) (by simp)
      (fun j hj hmem => absurd hmem (Finset.not_mem_empty _))
    constructor
    · intro hlt
      have hh : handleRxFrame initSlots ⟨R, fragWire B q ((B.length + 55) / 56) i⟩ now =
          ([⟨true, R, q % 256, (B.length + 55) / 56, B.length, 56, now, 0 ||| 1 <<< i, 0 + 1,
              memcpyAt (fun _ => 0) (56 * i)
                ((B.drop (56 * i)).take (min (B.length - 56 * i) 56))⟩,
            zeroSlot, zeroSlot, zeroSlot], []) := by
        unfold handleRxFrame
        simp only [hdec, fragWire_length]
        rw [if_neg (show ¬ (B.length + 55) / 56 = 0 by omega),
          if_neg (show ¬ (B.length + 55) / 56 ≤ i by omega),
          if_neg (show ¬ 64 < (B.length + 55) / 56 by omega),
          if_neg (show ¬ B.length = 0 by omega),
          if_neg (show ¬ 2048 < B.length by omega),
          reasmGetSlot_init]
        simp only [List.getD_cons_zero]
        exact key.1 (by simpa using hlt)
      refine ⟨_, hh, ?_⟩
      refine ⟨0 ||| 1 <<< i, memcpyAt (fun _ => 0) (56 * i)
        ((B.drop (56 * i)).take (min (B.length - 56 * i) 56)), ?_, ?_, ?_⟩
      · rw [hca]
        simp
      · exact maskHolds_insert ∅ 0 i (fun j => by simp [Nat.zero_testBit])
      · exact memcpy_chunk B ∅ (fun _ => 0) i
          (fun j hj hmem => absurd hmem (Finset.not_mem_empty _)) hoff
    · intro heq
      unfold handleRxFrame
      simp only [hdec, fragWire_length]
      rw [if_neg (show ¬ (B.length + 55) / 56 = 0 by omega),
        if_neg (show ¬ (B.length + 55) / 56 ≤ i by omega),
        if_neg (show ¬ 64 < (B.length + 55) / 56 by omega),
        if_neg (show ¬ B.length = 0 by omega),
        if_neg (show ¬ 2048 < B.length by omega),
        reasmGetSlot_init]
      simp only [List.getD_cons_zero]
      exact key.2 (by simpa using heq)
  · subst hslots
    have key := reasmAccept_step B
      ⟨true, R, q % 256, (B.length + 55) / 56, B.length, 56, now, m, S.card, bf⟩ R q now
      ((if i = 0 then 1 else 0) ||| (if i = (B.length + 55) / 56 - 1 then 2 else 0))
      S m S.card bf i h1 h2 hi hiS hsub hm rfl hbf
    constructor
    · intro hlt
      have hh : handleRxFrame
          [⟨true, R, q % 256, (B.length + 55) / 56, B.length, 56, now, m, S.card, bf⟩,
            zeroSlot, zeroSlot, zeroSlot]
          ⟨R, fragWire B q ((B.length + 55) / 56) i⟩ now =
          ([⟨true, R, q % 256, (B.length + 55) / 56, B.length, 56, now, m ||| 1 <<< i,
              S.card + 1,
              memcpyAt bf (56 * i)
                ((B.drop (56 * i)).take (min (B.length - 56 * i) 56))⟩,
            zeroSlot, zeroSlot, zeroSlot], []) := by
        unfold handleRxFrame
        simp only [hdec, fragWire_length]
        rw [if_neg (show ¬ (B.length + 55) / 56 = 0 by omega),
          if_neg (show ¬ (B.length + 55) / 56 ≤ i by omega),
          if_neg (show ¬ 64 < (B.length + 55) / 56 by omega),
          if_neg (show ¬ B.length = 0 by omega),
          if_neg (show ¬ 2048 < B.length by omega),
          reasmGetSlot_match _ _ _ _ rfl rfl rfl]
        simp only [List.getD_cons_zero]
        rw [if_neg (show ¬ (B.length + 55) / 56 = 0 by omega)]
        rw [if_neg (show ¬ ((B.length + 55) / 56 ≠ (B.length + 55) / 56) by omega)]
        rw [if_neg (show ¬ (B.length ≠ B.length) by omega)]
        exact key.1 hlt
      refine ⟨_, hh, ?_⟩
      refine ⟨m ||| 1 <<< i, memcpyAt bf (56 * i)
        ((B.drop (56 * i)).take (min (B.length - 56 * i) 56)), ?_, ?_, ?_⟩
      · rw [hca]
      · exact maskHolds_insert S m i hm
      · exact memcpy_chunk B S bf i hbf hoff
    · intro heq
      unfold handleRxFrame
      simp only [hdec, fragWire_length]
      rw [if_neg (show ¬ (B.length + 55) / 56 = 0 by omega),
        if_neg (show ¬ (B.length + 55) / 56 ≤ i by omega),
        if_neg (show ¬ 64 < (B.length + 55) / 56 by omega),
        if_neg (show ¬ B.length = 0 by omega),
        if_neg (show ¬ 2048 < B.length by omega),
        reasmGetSlot_match _ _ _ _ rfl rfl rfl]
      simp only [List.getD_cons_zero]
      rw [if_neg (show ¬ (B.length + 55) / 56 = 0 by omega)]
      rw [if_neg (show ¬ ((B.length + 55) / 56 ≠ (B.length + 55) / 56) by omega)]
      rw [if_neg (show ¬ (B.length ≠ B.length) by omega)]
      exact key.2 heq

lemma roundtrip_go (B : List Nat) (R q now : Nat) (h1 : 1 ≤ B.length) (h2 : B.length ≤ 2048) :
    ∀ (l : List Nat) (S : Finset Nat) (slots : List Slot),
      l.Nodup →
      (∀ k ∈ l, k < (B.length + 55) / 56 ∧ k ∉ S) →
      S ⊆ Finset.range ((B.length + 55) / 56) →
      S.card + l.length = (B.length + 55) / 56 →
      ((S = ∅ ∧ slots = initSlots) ∨ ReasmInv B R q now S slots) →
      l ≠ [] →
      (processList slots (l.map fun k => ⟨R, fragWire B q ((B.length + 55) / 56) k⟩) now).2 =
        [B]
  | [], _, _, _, _, _, _, _, hne => absurd rfl hne
  | [i], S, slots, _, hmem, hsub, hcard, hInv, _ => by
    have hi := (hmem i (by simp)).1
    have hiS := (hmem i (by simp)).2
    have hstep := handle_step B R q now S slots i h1 h2 hi hiS hsub hInv
    have hcomplete := hstep.2 (by simpa using hcard)
    simp only [List.map_cons, List.map_nil, processList_cons, processList_nil,
      List.append_nil, hcomplete]
  | i :: j :: rest, S, slots, hnd, hmem, hsub, hcard, hInv, _ => by
    have hi := (hmem i (by simp)).1
    have hiS := (hmem i (by simp)).2
    have hstep := handle_step B R q now S slots i h1 h2 hi hiS hsub hInv
    obtain ⟨slots', heq, hInv'⟩ :=
      hstep.1 (by simp only [List.length_cons] at hcard; omega)
    have hIH := roundtrip_go B R q now h1 h2 (j :: rest) (insert i S) slots'
      (List.Nodup.of_cons hnd)
      (fun k hk => ⟨(hmem k (List.mem_cons_of_mem i hk)).1, by
        rw [Finset.mem_insert]
        rintro (hki | hkS)
        · exact (List.nodup_cons.mp hnd).1 (hki ▸ hk)
        · exact (hmem k (List.mem_cons_of_mem i hk)).2 hkS⟩)
      (Finset.insert_subset (Finset.mem_range.mpr hi) hsub)
      (by
        rw [Finset.card_insert_of_not_mem hiS]
        simp only [List.length_cons] at hcard ⊢
        omega)
      (Or.inr hInv') (by simp)
    simp only [List.map_cons]
    rw [processList_cons, heq]
    simpa using hIH

/-- Claim C1: for every buffer B with 1 <= length <= 2048 that
can_bus_send_large fragments into wire frames, feeding those frames back into
the receive path in any order (each frame exactly once, all at one tick)
produces exactly one subscriber notification, whose bytes are exactly B. -/
theorem frag_reassemble_roundtrip (B : List Nat) (seqv stdId now : Nat)
    (l : List Nat) (txs : List TxFrame)
    (h1 : 1 ≤ B.length) (h2 : B.length ≤ 2048)
    (hsend : canBusSendLarge B seqv stdId = some txs)
    (hperm : l.Perm (List.range txs.length)) :
    (canBusProcessRx initSlots
      (l.map fun k => ⟨(txs.getD k default).id, (txs.getD k default).data⟩) now).2 =
      [B] := by
  rw [canBusSendLarge_eq B seqv stdId h1 (by omega)] at hsend
  have htxs := (Option.some.inj hsend).symm
  have hperm' : l.Perm (List.range ((B.length + 55) / 56)) := by simpa [htxs] using hperm
  have hmem : ∀ k ∈ l, k < (B.length + 55) / 56 := fun k hk =>
    List.mem_range.mp (hperm'.mem_iff.mp hk)
  have hlength : l.length = (B.length + 55) / 56 := by simpa using hperm'.length_eq
  have hne : l ≠ [] := by
    intro h
    rw [h] at hlength
    simp at hlength
    omega
  have hnd : l.Nodup := hperm'.symm.nodup (List.nodup_range _)
  have hmap : (l.map fun k =>
      (⟨(txs.getD k default).id, (txs.getD k default).data⟩ : RxFrame)) =
      l.map fun k => ⟨stdId % 0x800, fragWire B seqv ((B.length + 55) / 56) k⟩ :=
    List.map_congr_left (fun k hk => by
      rw [htxs, List.getD_eq_getElem?_getD,
        List.getElem?_eq_getElem (by simpa using hmem k hk)]
      simp)
  rw [hmap]
  unfold canBusProcessRx
  rw [reasmExpireOld_init]
  exact roundtrip_go B (stdId % 0x800) seqv now h1 h2 l ∅ initSlots hnd
    (fun k hk => ⟨hmem k hk, Finset.not_mem_empty k⟩) (Finset.empty_subset _)
    (by simpa using hlength) (Or.inl ⟨rfl, rfl⟩) hne

theorem frag_reassemble_roundtrip_witness :
    1 ≤ (List.replicate 60 7).length ∧ (List.replicate 60 7).length ≤ 2048 ∧
    canBusSendLarge (List.replicate 60 7) 0 5 =
      some ((canBusSendLarge (List.replicate 60 7) 0 5).getD []) ∧
    List.Perm [1, 0]
      (List.range ((canBusSendLarge (List.replicate 60 7) 0 5).getD []).length) ∧
    (canBusProcessRx initSlots
      ([1, 0].map fun k =>
        ⟨(((canBusSendLarge (List.replicate 60 7) 0 5).getD []).getD k default).id,
         (((canBusSendLarge (List.replicate 60 7) 0 5).getD []).getD k default).data⟩) 9).2 =
      [List.replicate 60 7] :=
  ⟨by decide, by decide, by decide, by decide,
   frag_reassemble_roundtrip (List.replicate 60 7) 0 5 9 [1, 0]
     ((canBusSendLarge (List.replicate 60 7) 0 5).getD []) (by decide) (by decide)
     (by decide) (by decide)⟩
